import Mathlib

/-!
Shallow embedding of `src/rss-feeds-tutorial-script.py`, an RSS news
aggregator: `fetch_all_feeds`, `display_articles`, `parse_date`,
`sort_articles_by_date` and `filter_articles`, together with the data
model (entries, articles, datetimes) they operate on.

Python strings are modelled as lists of characters, Python `datetime`
values as a six-field record ordered lexicographically, and the external
feed-parsing and date-parsing libraries as explicit functions (an
abstract "world" for the network, and a concrete ISO-8601 parser for
`dateutil`).
-/

namespace RSS

/-- Python strings, modelled as lists of characters. -/
abbrev Str := List Char

/-- Coerce a Lean string literal into the `Str` model. -/
def str (s : String) : Str := s.data

/-- One raw feed entry as produced by the external `feedparser` library.
Each field is optional: `entry.get(key, default)` in the script reads a
field that may be absent. Only the six keys the script ever reads are
modelled. -/
structure Entry where
  title : Option Str
  link : Option Str
  summary : Option Str
  description : Option Str
  published : Option Str
  updated : Option Str
deriving DecidableEq

/-- The normalized article record built by `fetch_all_feeds` (lines 50-56
of the script): five fields, always present. -/
structure Article where
  title : Str
  link : Str
  description : Str
  published : Str
  source : Str
deriving DecidableEq

/-- Python `datetime.datetime` restricted to whole seconds: year, month,
day, hour, minute, second. Comparison is lexicographic, as in Python. -/
structure DateTime where
  year : Nat
  month : Nat
  day : Nat
  hour : Nat
  minute : Nat
  second : Nat
deriving DecidableEq

/-- The lexicographic key of a `DateTime`, used to lift the linear order
from nested lexicographic products of naturals. -/
def DateTime.key (d : DateTime) :
    Lex (Nat × Lex (Nat × Lex (Nat × Lex (Nat × Lex (Nat × Nat))))) :=
  toLex (d.year, toLex (d.month, toLex (d.day, toLex (d.hour, toLex (d.minute, d.second)))))

theorem DateTime.key_injective : Function.Injective DateTime.key := by
  intro a b h
  cases a
  cases b
  simp only [DateTime.key, toLex_inj, Prod.mk.injEq] at h
  obtain ⟨h1, h2, h3, h4, h5, h6⟩ := h
  simp_all

instance : LinearOrder DateTime := LinearOrder.lift' DateTime.key DateTime.key_injective

theorem DateTime.le_def (a b : DateTime) : a ≤ b ↔ a.key ≤ b.key := Iff.rfl

theorem DateTime.lt_def (a b : DateTime) : a < b ↔ a.key < b.key :=
  lt_iff_lt_of_le_iff_le' (DateTime.le_def b a) (DateTime.le_def a b)

/-- Python's `datetime.min`: year 1, month 1, day 1, midnight. -/
def datetimeMin : DateTime := ⟨1, 1, 1, 0, 0, 0⟩

/-- Numeric value of a decimal digit character. -/
def digitVal (c : Char) : Nat := c.toNat - 48

/-- Read a two-digit decimal number. -/
def num2 (a b : Char) : Option Nat :=
  if a.isDigit && b.isDigit then some (10 * digitVal a + digitVal b) else none

/-- Read a four-digit decimal number. -/
def num4 (a b c d : Char) : Option Nat :=
  if a.isDigit && b.isDigit && c.isDigit && d.isDigit then
    some (1000 * digitVal a + 100 * digitVal b + 10 * digitVal c + digitVal d)
  else none

/-- Gregorian leap-year rule, as validated by Python dates. -/
def isLeapYear (y : Nat) : Bool := (y % 4 == 0 && y % 100 != 0) || y % 400 == 0

/-- Number of days in a month, as validated by Python dates. -/
def daysInMonth (y mo : Nat) : Nat :=
  if mo = 2 then (if isLeapYear y then 29 else 28)
  else if mo = 4 ∨ mo = 6 ∨ mo = 9 ∨ mo = 11 then 30
  else 31

/-- Build a `DateTime` from components, validating the ranges Python's
`datetime` constructor enforces (year 1-9999, real calendar date, time of
day); out-of-range components make the external parser fail. -/
def mkDateTime (y mo d h mi s : Nat) : Option DateTime :=
  if 1 ≤ y ∧ y ≤ 9999 ∧ 1 ≤ mo ∧ mo ≤ 12 ∧ 1 ≤ d ∧ d ≤ daysInMonth y mo
      ∧ h ≤ 23 ∧ mi ≤ 59 ∧ s ≤ 59 then
    some ⟨y, mo, d, h, mi, s⟩
  else none

/-- Model of the external `dateutil.parser.parse` library function,
restricted to timezone-naive ISO-8601 forms `YYYY-MM-DD` and
`YYYY-MM-DD[T ]HH:MM:SS`; every other input fails to parse (`none`),
standing for the exception the library raises. -/
def dateutilParse : Str → Option DateTime
  | [y1, y2, y3, y4, s1, m1, m2, s2, d1, d2] =>
    if s1 = '-' ∧ s2 = '-' then
      match num4 y1 y2 y3 y4, num2 m1 m2, num2 d1 d2 with
      | some y, some mo, some d => mkDateTime y mo d 0 0 0
      | _, _, _ => none
    else none
  | [y1, y2, y3, y4, s1, m1, m2, s2, d1, d2, t, h1, h2, c1, n1, n2, c2, e1, e2] =>
    if s1 = '-' ∧ s2 = '-' ∧ (t = 'T' ∨ t = ' ') ∧ c1 = ':' ∧ c2 = ':' then
      match num4 y1 y2 y3 y4, num2 m1 m2, num2 d1 d2, num2 h1 h2, num2 n1 n2, num2 e1 e2 with
      | some y, some mo, some d, some h, some mi, some s => mkDateTime y mo d h mi s
      | _, _, _, _, _, _ => none
    else none
  | _ => none

/-- The call `date_parser.parse(date_string)` inside `parse_date`: the
library either returns a datetime or raises; raising is modelled as
`Except.error` carrying the offending input. -/
def date_parser_parse (date_string : Str) : Except Str DateTime :=
  match dateutilParse date_string with
  | some d => .ok d
  | none => .error date_string

/-- `parse_date` (script lines 84-97): try `date_parser.parse`, and on
any exception return `datetime.min`. -/
def parse_date (date_string : Str) : DateTime :=
  match date_parser_parse date_string with
  | .ok d => d
  | .error _ => datetimeMin

/-- The comparison `sorted(..., reverse=True)` effectively sorts by:
article `a` may come before `b` when `b`'s key is at most `a`'s. -/
def descRel (a b : Article) : Prop :=
  parse_date b.published ≤ parse_date a.published

/-- The comparison used by `sorted(...)` ascending: article `a` may come
before `b` when `a`'s key is at most `b`'s. -/
def ascRel (a b : Article) : Prop :=
  parse_date a.published ≤ parse_date b.published

instance : DecidableRel descRel := fun a b =>
  inferInstanceAs (Decidable (parse_date b.published ≤ parse_date a.published))

instance : DecidableRel ascRel := fun a b =>
  inferInstanceAs (Decidable (parse_date a.published ≤ parse_date b.published))

instance : IsTotal Article descRel := ⟨fun a b =>
  le_total (parse_date b.published) (parse_date a.published)⟩

instance : IsTrans Article descRel := ⟨fun _ _ _ h1 h2 => le_trans h2 h1⟩

instance : IsTotal Article ascRel := ⟨fun a b =>
  le_total (parse_date a.published) (parse_date b.published)⟩

instance : IsTrans Article ascRel := ⟨fun _ _ _ h1 h2 => le_trans h1 h2⟩

/-- `sort_articles_by_date` (script lines 100-111): Python's `sorted`
with key `parse_date(x['published'])` and the `reverse` flag. Python's
sort is stable; it is modelled by the stable `List.insertionSort` on the
corresponding total preorder. -/
def sort_articles_by_date (articles : List Article) (reverse : Bool := true) : List Article :=
  if reverse then List.insertionSort descRel articles
  else List.insertionSort ascRel articles

/-- Python `str.lower`, character by character (ASCII case mapping). -/
def lowerStr (s : Str) : Str := s.map Char.toLower

/-- Python's substring test `needle in hay` (first argument the haystack,
second the needle): the empty needle is contained everywhere, and
otherwise the needle must be a prefix of some suffix of the haystack. -/
def strContains : Str → Str → Bool
  | _, [] => true
  | [], _ :: _ => false
  | h :: t, n :: m => ((n :: m).isPrefixOf (h :: t)) || strContains t (n :: m)

/-- `filter_articles` (script lines 114-132): keep articles whose
lowercased title or lowercased description contains the lowercased
keyword. -/
def filter_articles (articles : List Article) (keyword : Str) : List Article :=
  let keyword_lower := lowerStr keyword
  articles.filter fun a =>
    strContains (lowerStr a.title) keyword_lower
      || strContains (lowerStr a.description) keyword_lower

/-- One line of console output from the fetching loop: the script prints
"Fetching {name}...", then on success "  ✓ Found {n} articles" and on
failure "  ✗ Error fetching {name}: {msg}". The three print formats are
modelled as structured events carrying exactly the data interpolated
into them. -/
inductive LogEvent where
  | fetching (source : Str)
  | found (count : Nat)
  | fetchError (source : Str) (message : Str)
deriving DecidableEq

/-- The external world seen by `feedparser.parse`: each feed URL either
yields a list of raw entries, or raises an exception carrying a message
(`Except.error`). The script's `try` block spans the parse call and the
normalization loop, but only the parse call can raise. -/
abbrev FeedWorld := Str → Except Str (List Entry)

/-- The article built from one raw entry inside `fetch_all_feeds`
(script lines 50-56), with the `get`-with-default fallback chains. -/
def normalizeEntry (source_name : Str) (e : Entry) : Article :=
  { title := e.title.getD (str "No title")
    link := e.link.getD []
    description := e.summary.getD (e.description.getD (str "No description"))
    published := e.published.getD (e.updated.getD [])
    source := source_name }

/-- One iteration of the loop in `fetch_all_feeds` (lines 43-65): fetch
and parse the feed, normalize its entries, and log; on exception, log
the error and contribute no articles. The `time.sleep(0.5)` politeness
pause has no observable effect in the model. -/
def fetchSource (w : FeedWorld) (source_name feed_url : Str) :
    List Article × List LogEvent :=
  match w feed_url with
  | .ok entries =>
    (entries.map (normalizeEntry source_name),
     [.fetching source_name, .found entries.length])
  | .error e =>
    ([], [.fetching source_name, .fetchError source_name e])

/-- `fetch_all_feeds` (script lines 31-67): iterate the source→URL
mapping in order (Python dicts iterate in insertion order, so the
mapping is a list of pairs), accumulating articles and console output. -/
def fetch_all_feeds (w : FeedWorld) : List (Str × Str) → List Article × List LogEvent
  | [] => ([], [])
  | (source_name, feed_url) :: rest =>
    let cur := fetchSource w source_name feed_url
    let others := fetch_all_feeds w rest
    (cur.1 ++ others.1, cur.2 ++ others.2)

/-- The fixed `RSS_FEEDS` registry (script lines 23-28). -/
def RSS_FEEDS : List (Str × Str) :=
  [(str "BBC News", str "http://feeds.bbci.co.uk/news/rss.xml"),
   (str "TechCrunch", str "https://techcrunch.com/feed/"),
   (str "The Guardian", str "https://www.theguardian.com/world/rss"),
   (str "NPR", str "https://feeds.npr.org/1001/rss.xml")]

/-- One article block printed by `display_articles` (lines 76-81):
index, source, title, link, raw published text, and the description
truncated with `[:150]` and followed by the literal `"..."`. -/
structure DisplayEntry where
  index : Nat
  source : Str
  title : Str
  link : Str
  published : Str
  descriptionShown : Str
deriving DecidableEq

/-- Python's slice `l[:limit]` for an integer `limit`: nonnegative stops
take that many elements from the front; a negative stop counts from the
end (clamping at zero). -/
def pySlice {α : Type} (limit : Int) (l : List α) : List α :=
  if 0 ≤ limit then l.take limit.toNat
  else l.take ((l.length : Int) + limit).toNat

/-- `display_articles` (script lines 70-81): after the header, iterate
`enumerate(articles[:limit], 1)` printing one block per article. The
model returns the list of printed blocks; the function writes to
standard output only and returns `None`, mutating nothing. -/
def display_articles (articles : List Article) (limit : Int := 10) : List DisplayEntry :=
  (List.enumFrom 1 (pySlice limit articles)).map fun p =>
    { index := p.1
      source := p.2.source
      title := p.2.title
      link := p.2.link
      published := p.2.published
      descriptionShown := p.2.description.take 150 ++ str "..." }

/-! ### Helper lemmas about the substring test -/

theorem strContains_nil (hay : Str) : strContains hay [] = true := by
  cases hay <;> rfl

theorem strContains_iff (hay needle : Str) :
    strContains hay needle = true ↔ needle <:+: hay := by
  induction hay generalizing needle with
  | nil =>
    cases needle with
    | nil => simp [strContains]
    | cons n m =>
      simp only [strContains, List.infix_nil]
      constructor
      · intro h
        exact absurd h (by simp)
      · intro h
        exact absurd h (by simp)
  | cons h t ih =>
    cases needle with
    | nil => simp [strContains]
    | cons n m =>
      rw [strContains, List.infix_cons_iff]
      rw [Bool.or_eq_true, List.isPrefixOf_iff_prefix, ih]

theorem strContains_eq_decide (hay needle : Str) :
    strContains hay needle = decide (needle <:+: hay) := by
  rcases hb : strContains hay needle with _ | _
  · symm
    rw [decide_eq_false_iff_not]
    intro hc
    rw [← strContains_iff hay needle] at hc
    rw [hb] at hc
    exact Bool.false_ne_true hc
  · symm
    rw [decide_eq_true_eq]
    exact (strContains_iff hay needle).mp hb

/-! ### Helper lemmas about the sentinel date -/

theorem datetimeMin_le_of_valid {d : DateTime}
    (hy : 1 ≤ d.year) (hm : 1 ≤ d.month) (hd : 1 ≤ d.day) : datetimeMin ≤ d := by
  rw [DateTime.le_def]
  show toLex (1, toLex (1, toLex (1, toLex (0, toLex (0, 0))))) ≤
    toLex (d.year, toLex (d.month, toLex (d.day, toLex (d.hour, toLex (d.minute, d.second)))))
  rw [Prod.Lex.le_iff]
  rcases lt_or_eq_of_le hy with h1 | h1
  · exact Or.inl h1
  right
  refine ⟨h1, ?_⟩
  rw [Prod.Lex.le_iff]
  rcases lt_or_eq_of_le hm with h2 | h2
  · exact Or.inl h2
  right
  refine ⟨h2, ?_⟩
  rw [Prod.Lex.le_iff]
  rcases lt_or_eq_of_le hd with h3 | h3
  · exact Or.inl h3
  right
  refine ⟨h3, ?_⟩
  rw [Prod.Lex.le_iff]
  rcases Nat.eq_zero_or_pos d.hour with h4 | h4
  · right
    refine ⟨h4.symm, ?_⟩
    rw [Prod.Lex.le_iff]
    rcases Nat.eq_zero_or_pos d.minute with h5 | h5
    · exact Or.inr ⟨h5.symm, Nat.zero_le _⟩
    · exact Or.inl h5
  · exact Or.inl h4

theorem mkDateTime_valid {y mo dd h mi s : Nat} {d : DateTime}
    (hmk : mkDateTime y mo dd h mi s = some d) :
    1 ≤ d.year ∧ 1 ≤ d.month ∧ 1 ≤ d.day := by
  unfold mkDateTime at hmk
  split at hmk
  · rename_i hcond
    obtain rfl : (⟨y, mo, dd, h, mi, s⟩ : DateTime) = d := Option.some.inj hmk
    exact ⟨hcond.1, hcond.2.2.1, hcond.2.2.2.2.1⟩
  · exact absurd hmk (by simp)

theorem dateutilParse_valid {s : Str} {d : DateTime}
    (hp : dateutilParse s = some d) : 1 ≤ d.year ∧ 1 ≤ d.month ∧ 1 ≤ d.day := by
  unfold dateutilParse at hp
  split at hp
  · split at hp
    · split at hp
      · exact mkDateTime_valid hp
      · exact absurd hp (by simp)
    · exact absurd hp (by simp)
  · split at hp
    · split at hp
      · exact mkDateTime_valid hp
      · exact absurd hp (by simp)
    · exact absurd hp (by simp)
  · exact absurd hp (by simp)

theorem datetimeMin_le_parsed {s : Str} {d : DateTime}
    (hp : dateutilParse s = some d) : datetimeMin ≤ d := by
  obtain ⟨h1, h2, h3⟩ := dateutilParse_valid hp
  exact datetimeMin_le_of_valid h1 h2 h3

theorem parse_date_of_none {s : Str} (h : dateutilParse s = none) :
    parse_date s = datetimeMin := by
  unfold parse_date date_parser_parse
  rw [h]

theorem parse_date_of_some {s : Str} {d : DateTime} (h : dateutilParse s = some d) :
    parse_date s = d := by
  unfold parse_date date_parser_parse
  rw [h]

/-! ### Stability of the modelled sort -/

theorem filter_orderedInsert_pos {α : Type} (r : α → α → Prop) [DecidableRel r]
    (p : α → Bool) (x : α) (l : List α)
    (hx : p x = true) (hcomp : ∀ y, ¬ r x y → p y = false) :
    (l.orderedInsert r x).filter p = x :: l.filter p := by
  rw [List.orderedInsert_eq_take_drop, List.filter_append, List.filter_cons, hx]
  have htake : (l.takeWhile fun b => decide ¬ r x b).filter p = [] := by
    rw [List.filter_eq_nil_iff]
    intro a ha
    have := List.mem_takeWhile_imp ha
    rw [decide_eq_true_eq] at this
    simp [hcomp a this]
  rw [htake]
  have hsplit : l.filter p = (l.takeWhile fun b => decide ¬ r x b).filter p
      ++ (l.dropWhile fun b => decide ¬ r x b).filter p := by
    rw [← List.filter_append, List.takeWhile_append_dropWhile]
  rw [hsplit, htake]
  simp

theorem filter_orderedInsert_neg {α : Type} (r : α → α → Prop) [DecidableRel r]
    (p : α → Bool) (x : α) (l : List α) (hx : p x = false) :
    (l.orderedInsert r x).filter p = l.filter p := by
  rw [List.orderedInsert_eq_take_drop, List.filter_append, List.filter_cons, hx]
  have hsplit : l.filter p = (l.takeWhile fun b => decide ¬ r x b).filter p
      ++ (l.dropWhile fun b => decide ¬ r x b).filter p := by
    rw [← List.filter_append, List.takeWhile_append_dropWhile]
  rw [hsplit]
  simp

theorem filter_insertionSort {α : Type} (r : α → α → Prop) [DecidableRel r]
    (p : α → Bool) (hcomp : ∀ x y, p x = true → ¬ r x y → p y = false) :
    ∀ l : List α, (List.insertionSort r l).filter p = l.filter p := by
  intro l
  induction l with
  | nil => rfl
  | cons x xs ih =>
    rw [List.insertionSort]
    rcases hx : p x with _ | _
    · rw [filter_orderedInsert_neg r p x _ hx, ih, List.filter_cons, hx]
      simp
    · rw [filter_orderedInsert_pos r p x _ hx (fun y => hcomp x y hx), ih,
        List.filter_cons, hx]
      simp

/-! ### Helper lemmas about the fetching loop -/

theorem fetchSource_source {w : FeedWorld} {n u : Str} {a : Article}
    (h : a ∈ (fetchSource w n u).1) : a.source = n := by
  unfold fetchSource at h
  split at h
  · rw [List.mem_map] at h
    obtain ⟨e, _, rfl⟩ := h
    rfl
  · simp at h

theorem fetch_article_source_mem {w : FeedWorld} {fd : List (Str × Str)} {a : Article}
    (ha : a ∈ (fetch_all_feeds w fd).1) : a.source ∈ fd.map Prod.fst := by
  induction fd with
  | nil => simp [fetch_all_feeds] at ha
  | cons p rest ih =>
    obtain ⟨n, u⟩ := p
    rw [fetch_all_feeds, List.mem_append] at ha
    rw [List.map_cons, List.mem_cons]
    rcases ha with h | h
    · exact Or.inl (fetchSource_source h)
    · exact Or.inr (ih h)

theorem fetch_filter_source {w : FeedWorld} {fd : List (Str × Str)}
    (hnd : (fd.map Prod.fst).Nodup) {n u : Str} (hmem : (n, u) ∈ fd) :
    (fetch_all_feeds w fd).1.filter (fun a => decide (a.source = n)) =
      (fetchSource w n u).1 := by
  induction fd with
  | nil => simp at hmem
  | cons p rest ih =>
    obtain ⟨pn, pu⟩ := p
    rw [List.map_cons, List.nodup_cons] at hnd
    obtain ⟨hpn, hnd2⟩ := hnd
    rw [fetch_all_feeds, List.filter_append]
    rcases List.mem_cons.mp hmem with heq | hmem2
    · obtain ⟨h1, h2⟩ := Prod.mk.injEq .. ▸ heq
      subst h1
      subst h2
      have hcur : (fetchSource w n u).1.filter (fun a => decide (a.source = n)) =
          (fetchSource w n u).1 := by
        rw [List.filter_eq_self]
        intro a ha
        simp [fetchSource_source ha]
      have hrest : (fetch_all_feeds w rest).1.filter (fun a => decide (a.source = n)) = [] := by
        rw [List.filter_eq_nil_iff]
        intro a ha
        have := fetch_article_source_mem ha
        simp only [decide_eq_true_eq]
        intro hs
        rw [hs] at this
        exact hpn this
      rw [hcur, hrest, List.append_nil]
    · have hne : pn ≠ n := by
        intro hpe
        apply hpn
        rw [hpe, List.mem_map]
        exact ⟨(n, u), hmem2, rfl⟩
      have hcur : (fetchSource w pn pu).1.filter (fun a => decide (a.source = n)) = [] := by
        rw [List.filter_eq_nil_iff]
        intro a ha
        simp only [decide_eq_true_eq]
        rw [fetchSource_source ha]
        exact hne
      rw [hcur, List.nil_append]
      exact ih hnd2 hmem2

theorem fetch_failure_logged {w : FeedWorld} {fd : List (Str × Str)}
    {name url msg : Str} (hmem : (name, url) ∈ fd) (hfail : w url = .error msg) :
    LogEvent.fetchError name msg ∈ (fetch_all_feeds w fd).2 := by
  induction fd with
  | nil => simp at hmem
  | cons p rest ih =>
    obtain ⟨pn, pu⟩ := p
    rw [fetch_all_feeds, List.mem_append]
    rcases List.mem_cons.mp hmem with heq | hmem2
    · obtain ⟨h1, h2⟩ := Prod.mk.injEq .. ▸ heq
      subst h1
      subst h2
      left
      unfold fetchSource
      rw [hfail]
      simp
    · exact Or.inr (ih hmem2)

theorem fetch_all_feeds_fst (w : FeedWorld) (fd : List (Str × Str)) :
    (fetch_all_feeds w fd).1 = (fd.map fun p => (fetchSource w p.1 p.2).1).flatten := by
  induction fd with
  | nil => rfl
  | cons p rest ih =>
    obtain ⟨n, u⟩ := p
    rw [fetch_all_feeds, List.map_cons, List.flatten_cons, ← ih]

/-- The entries a feed URL yields in a given world: the parsed entry
list on success, none on failure. -/
def entriesOf (w : FeedWorld) (u : Str) : List Entry :=
  match w u with
  | .ok es => es
  | .error _ => []

/-! ### Concrete fixtures used by the witnesses -/

/-- A raw entry with title and published date (the spec's end-to-end
scenario entry "New Chip Unveiled"). -/
def entryA : Entry :=
  ⟨some (str "New Chip Unveiled"), none, none, none, some (str "2024-01-01"), none⟩

/-- A raw entry with no fields at all, exercising every fallback. -/
def entryEmpty : Entry := ⟨none, none, none, none, none, none⟩

/-- A two-source registry: Source A and Source B. -/
def fdEx : List (Str × Str) := [(str "Source A", str "ua"), (str "Source B", str "ub")]

/-- A world where Source A's URL parses to two entries and every other
URL raises a network error "boom". -/
def wEx : FeedWorld := fun u =>
  if u = str "ua" then .ok [entryA, entryEmpty] else .error (str "boom")

/-- A world where every URL parses to the single entry `entryA`. -/
def wOk : FeedWorld := fun _ => .ok [entryA]

/-! ### Claim theorems: the fetching loop -/

/-- C1: if retrieving or parsing one source's feed fails,
`fetch_all_feeds` logs the source name and error message, that source
contributes zero articles, and every other (successful) source still
contributes exactly its parsed entries, normalized in order. -/
theorem fetch_failure_isolation (w : FeedWorld) (fd : List (Str × Str))
    (name url msg : Str) (hnd : (fd.map Prod.fst).Nodup)
    (hmem : (name, url) ∈ fd) (hfail : w url = .error msg) :
    LogEvent.fetchError name msg ∈ (fetch_all_feeds w fd).2 ∧
    (fetch_all_feeds w fd).1.filter (fun a => decide (a.source = name)) = [] ∧
    ∀ n u es, (n, u) ∈ fd → n ≠ name → w u = .ok es →
      (fetch_all_feeds w fd).1.filter (fun a => decide (a.source = n)) =
        es.map (normalizeEntry n) := by
  refine ⟨fetch_failure_logged hmem hfail, ?_, ?_⟩
  · rw [fetch_filter_source hnd hmem]
    unfold fetchSource
    rw [hfail]
  · intro n u es hm hne hok
    rw [fetch_filter_source hnd hm]
    unfold fetchSource
    rw [hok]

/-- Witness for C1 at a concrete two-source registry where Source B's
URL fails with message "boom". -/
theorem fetch_failure_isolation_witness :
    LogEvent.fetchError (str "Source B") (str "boom") ∈ (fetch_all_feeds wEx fdEx).2 ∧
    (fetch_all_feeds wEx fdEx).1.filter (fun a => decide (a.source = str "Source B")) = [] ∧
    ∀ n u es, (n, u) ∈ fdEx → n ≠ str "Source B" → wEx u = .ok es →
      (fetch_all_feeds wEx fdEx).1.filter (fun a => decide (a.source = n)) =
        es.map (normalizeEntry n) :=
  fetch_failure_isolation wEx fdEx (str "Source B") (str "ub") (str "boom")
    (by decide) (by decide) rfl

/-- C3: with no failing source, `fetch_all_feeds` returns the
concatenation of each source's normalized articles, sources in mapping
order and entries in per-source order, so the output length is the sum
of the per-source parsed entry counts. -/
theorem fetch_concatenation (w : FeedWorld) (fd : List (Str × Str))
    (hok : ∀ p ∈ fd, ∃ es, w p.2 = Except.ok es) :
    (fetch_all_feeds w fd).1 =
      (fd.map fun p => (entriesOf w p.2).map (normalizeEntry p.1)).flatten ∧
    (fetch_all_feeds w fd).1.length =
      (fd.map fun p => (entriesOf w p.2).length).sum := by
  have hblock : ∀ p : Str × Str,
      (fetchSource w p.1 p.2).1 = (entriesOf w p.2).map (normalizeEntry p.1) := by
    intro p
    unfold fetchSource entriesOf
    rcases w p.2 with msg | es <;> simp
  have h1 : (fetch_all_feeds w fd).1 =
      (fd.map fun p => (entriesOf w p.2).map (normalizeEntry p.1)).flatten := by
    rw [fetch_all_feeds_fst]
    congr 1
    exact List.map_congr_left fun p _ => hblock p
  refine ⟨h1, ?_⟩
  rw [h1, List.length_flatten, List.map_map]
  congr 1
  exact List.map_congr_left fun p _ => by simp [Function.comp]

/-- Witness for C3 at a concrete registry where every URL succeeds. -/
theorem fetch_concatenation_witness :
    (fetch_all_feeds wOk fdEx).1 =
      (fdEx.map fun p => (entriesOf wOk p.2).map (normalizeEntry p.1)).flatten ∧
    (fetch_all_feeds wOk fdEx).1.length =
      (fdEx.map fun p => (entriesOf wOk p.2).length).sum :=
  fetch_concatenation wOk fdEx (fun p _ => ⟨[entryA], rfl⟩)

/-- C9: every article produced by `fetch_all_feeds` arises from a raw
entry of a successfully fetched registered source, has its five fields
filled by the fallback chains (title → "No title", link → "",
description ← summary → description → "No description", published ←
published → updated → ""), and carries that source's registry key. -/
theorem fetch_article_fields (w : FeedWorld) (fd : List (Str × Str)) (a : Article)
    (ha : a ∈ (fetch_all_feeds w fd).1) :
    ∃ n u es e, (n, u) ∈ fd ∧ w u = Except.ok es ∧ e ∈ es ∧
      a.title = e.title.getD (str "No title") ∧
      a.link = e.link.getD [] ∧
      a.description = e.summary.getD (e.description.getD (str "No description")) ∧
      a.published = e.published.getD (e.updated.getD []) ∧
      a.source = n := by
  induction fd with
  | nil => simp [fetch_all_feeds] at ha
  | cons p rest ih =>
    obtain ⟨pn, pu⟩ := p
    rw [fetch_all_feeds, List.mem_append] at ha
    rcases ha with h | h
    · unfold fetchSource at h
      rcases hw : w pu with msg | es
      · rw [hw] at h
        simp at h
      · rw [hw] at h
        simp only [List.mem_map] at h
        obtain ⟨e, he, rfl⟩ := h
        exact ⟨pn, pu, es, e, List.mem_cons_self .., hw, he, rfl, rfl, rfl, rfl, rfl⟩
    · obtain ⟨n, u, es, e, hm, hrest⟩ := ih h
      exact ⟨n, u, es, e, List.mem_cons_of_mem _ hm, hrest⟩

/-- Witness for C9 at a concrete article of a concrete fetch. -/
theorem fetch_article_fields_witness :
    ∃ n u es e, (n, u) ∈ fdEx ∧ wOk u = Except.ok es ∧ e ∈ es ∧
      (normalizeEntry (str "Source A") entryA).title = e.title.getD (str "No title") ∧
      (normalizeEntry (str "Source A") entryA).link = e.link.getD [] ∧
      (normalizeEntry (str "Source A") entryA).description =
        e.summary.getD (e.description.getD (str "No description")) ∧
      (normalizeEntry (str "Source A") entryA).published =
        e.published.getD (e.updated.getD []) ∧
      (normalizeEntry (str "Source A") entryA).source = n :=
  fetch_article_fields wOk fdEx (normalizeEntry (str "Source A") entryA) (by decide)

/-! ### Claim theorems: the date parser -/

/-- C4: `parse_date` is total on strings: it either returns the value
the external parser produced, or — exactly when the external parser
raises — the sentinel `datetime.min`; it never propagates an error. -/
theorem parse_date_total (s : Str) :
    (∃ d, date_parser_parse s = Except.ok d ∧ parse_date s = d) ∨
    ((∃ msg, date_parser_parse s = Except.error msg) ∧ parse_date s = datetimeMin) := by
  unfold parse_date date_parser_parse
  rcases h : dateutilParse s with _ | d
  · exact Or.inr ⟨⟨s, rfl⟩, rfl⟩
  · exact Or.inl ⟨d, rfl, rfl⟩

/-! ### Claim theorems: the filter -/

/-- C6: `filter_articles` returns exactly the subsequence of articles
whose title or description contains the keyword as a case-insensitive
substring; and an article whose (description) text is "This covers AI
trends" under any case permutation matches the keyword "AI" under any
case permutation. -/
theorem filter_articles_spec :
    (∀ (l : List Article) (kw : Str),
      filter_articles l kw = l.filter fun a =>
        decide (lowerStr kw <:+: lowerStr a.title ∨ lowerStr kw <:+: lowerStr a.description)) ∧
    (∀ kw d : Str, lowerStr kw = str "ai" →
      lowerStr d = lowerStr (str "This covers AI trends") →
      ∀ ti li pu so : Str,
        filter_articles [⟨ti, li, d, pu, so⟩] kw = [⟨ti, li, d, pu, so⟩]) := by
  constructor
  · intro l kw
    unfold filter_articles
    apply List.filter_congr
    intro a _
    rw [strContains_eq_decide, strContains_eq_decide]
    simp
  · intro kw d hkw hd ti li pu so
    unfold filter_articles
    have hm : strContains (lowerStr d) (lowerStr kw) = true := by
      rw [hkw, hd]
      decide
    simp [List.filter, hm]

/-- Witness for C6 at a concrete case-permuted keyword and article. -/
theorem filter_articles_spec_witness :
    filter_articles
      [⟨str "t", str "l", str "tHiS cOvErS Ai TrEnDs", str "p", str "s"⟩] (str "AI")
      = [⟨str "t", str "l", str "tHiS cOvErS Ai TrEnDs", str "p", str "s"⟩] :=
  filter_articles_spec.2 (str "AI") (str "tHiS cOvErS Ai TrEnDs")
    (by decide) (by decide) (str "t") (str "l") (str "p") (str "s")

/-- C7: the empty keyword is a substring of everything, so
`filter_articles` with the empty keyword is the identity. -/
theorem filter_articles_empty_keyword (l : List Article) : filter_articles l [] = l := by
  unfold filter_articles lowerStr
  simp [strContains_nil]

/-- C10: `filter_articles` is idempotent: filtering an already filtered
list with the same keyword changes nothing. -/
theorem filter_articles_idempotent (l : List Article) (kw : Str) :
    filter_articles (filter_articles l kw) kw = filter_articles l kw := by
  unfold filter_articles
  rw [List.filter_filter]
  exact List.filter_congr fun a _ => Bool.and_self _

/-! ### Claim theorems: the sorter and the sentinel -/

/-- An article whose published text fails to parse. -/
def artBad : Article := ⟨str "bad", [], str "d", str "not a date", str "S"⟩

/-- An article whose published text parses successfully to exactly the
sentinel `datetime.min` (year 1, January 1, midnight). -/
def artMin : Article := ⟨str "min", [], str "d", str "0001-01-01", str "S"⟩

/-- C2 counterexample: the published text "0001-01-01" parses
successfully to exactly `datetime.min`, so the sentinel is NOT strictly
less than every successfully parsed date; consequently, under the
default descending sort an unparseable article is not placed last (the
stable sort leaves the tie `[artBad, artMin]` in input order), and under
the ascending sort it is not placed first. -/
theorem sentinel_not_strictly_less_cex :
    dateutilParse artMin.published = some datetimeMin ∧
    dateutilParse artBad.published = none ∧
    ¬ datetimeMin < parse_date artMin.published ∧
    sort_articles_by_date [artBad, artMin] true = [artBad, artMin] ∧
    sort_articles_by_date [artMin, artBad] false = [artMin, artBad] := by
  decide

/-- C2 (amended): a parse failure yields the sentinel `datetime.min`;
the sentinel is less than or equal to every successfully parsed date,
and strictly less unless that date is itself the minimum-representable
one; and under `sort_articles_by_date` an unparseable article comes
after (descending) resp. before (ascending) every article whose parsed
date exceeds the sentinel. -/
theorem parse_date_sentinel_spec :
    (∀ s : Str, dateutilParse s = none → parse_date s = datetimeMin) ∧
    (∀ (s : Str) (d : DateTime), dateutilParse s = some d →
      datetimeMin ≤ d ∧ (d ≠ datetimeMin → datetimeMin < d)) ∧
    (∀ (l : List Article) (i j : Fin (sort_articles_by_date l true).length),
      dateutilParse ((sort_articles_by_date l true).get i).published = none →
      datetimeMin < parse_date ((sort_articles_by_date l true).get j).published →
      (j : Nat) < (i : Nat)) ∧
    (∀ (l : List Article) (i j : Fin (sort_articles_by_date l false).length),
      dateutilParse ((sort_articles_by_date l false).get i).published = none →
      datetimeMin < parse_date ((sort_articles_by_date l false).get j).published →
      (i : Nat) < (j : Nat)) := by
  have hs_true : ∀ l : List Article, (sort_articles_by_date l true).Sorted descRel := by
    intro l
    unfold sort_articles_by_date
    simp only [if_true]
    exact List.sorted_insertionSort descRel l
  have hs_false : ∀ l : List Article, (sort_articles_by_date l false).Sorted ascRel := by
    intro l
    unfold sort_articles_by_date
    simp only [Bool.false_eq_true, if_false]
    exact List.sorted_insertionSort ascRel l
  refine ⟨fun s h => parse_date_of_none h, ?_, ?_, ?_⟩
  · intro s d h
    refine ⟨datetimeMin_le_parsed h, fun hne => ?_⟩
    exact lt_of_le_of_ne (datetimeMin_le_parsed h) (Ne.symm hne)
  · intro l i j hnone hlt
    have hkey : parse_date ((sort_articles_by_date l true).get i).published = datetimeMin :=
      parse_date_of_none hnone
    by_contra hji
    push_neg at hji
    rcases Nat.eq_or_lt_of_le hji with heq | hlt2
    · have hij : i = j := Fin.ext heq
      rw [← hij, hkey] at hlt
      exact lt_irrefl _ hlt
    · have hrel : descRel ((sort_articles_by_date l true).get i)
          ((sort_articles_by_date l true).get j) :=
        (hs_true l).rel_get_of_lt hlt2
      unfold descRel at hrel
      rw [hkey] at hrel
      exact absurd hlt (not_lt.mpr hrel)
  · intro l i j hnone hlt
    have hkey : parse_date ((sort_articles_by_date l false).get i).published = datetimeMin :=
      parse_date_of_none hnone
    by_contra hij
    push_neg at hij
    rcases Nat.eq_or_lt_of_le hij with heq | hlt2
    · have hji : j = i := Fin.ext heq
      rw [hji, hkey] at hlt
      exact lt_irrefl _ hlt
    · have hrel : ascRel ((sort_articles_by_date l false).get j)
          ((sort_articles_by_date l false).get i) :=
        (hs_false l).rel_get_of_lt hlt2
      unfold ascRel at hrel
      rw [hkey] at hrel
      exact absurd hlt (not_lt.mpr hrel)

/-- Witness for C2 (amended) at concrete inputs: an unparseable string
maps to the sentinel, and a real date strictly exceeds the sentinel. -/
theorem parse_date_sentinel_spec_witness :
    parse_date (str "junk") = datetimeMin ∧
    datetimeMin < (⟨2024, 1, 2, 3, 4, 5⟩ : DateTime) :=
  ⟨parse_date_sentinel_spec.1 (str "junk") (by decide),
   (parse_date_sentinel_spec.2.1 (str "2024-01-02T03:04:05") ⟨2024, 1, 2, 3, 4, 5⟩
       (by decide)).2 (by decide)⟩

/-- C5: the sorter returns a permutation of its input sorted by the
parsed published date (descending under the default flag, ascending
otherwise), it is stable (articles with equal parsed dates keep their
relative input order: filtering any date class commutes with sorting),
and reversing the ascending result yields the same sequence of parsed
dates as the descending result (orders agree up to equal-date ties). -/
theorem sort_articles_spec (l : List Article) :
    (sort_articles_by_date l true).Sorted descRel ∧
    (sort_articles_by_date l false).Sorted ascRel ∧
    (sort_articles_by_date l true).Perm l ∧
    (sort_articles_by_date l false).Perm l ∧
    (∀ (rev : Bool) (d : DateTime),
      (sort_articles_by_date l rev).filter (fun a => decide (parse_date a.published = d)) =
        l.filter (fun a => decide (parse_date a.published = d))) ∧
    (sort_articles_by_date l false).reverse.map (fun a => parse_date a.published) =
      (sort_articles_by_date l true).map (fun a => parse_date a.published) := by
  have hdef_t : sort_articles_by_date l true = List.insertionSort descRel l := by
    unfold sort_articles_by_date
    simp
  have hdef_f : sort_articles_by_date l false = List.insertionSort ascRel l := by
    unfold sort_articles_by_date
    simp
  have hsort_t : (sort_articles_by_date l true).Sorted descRel := by
    rw [hdef_t]
    exact List.sorted_insertionSort descRel l
  have hsort_f : (sort_articles_by_date l false).Sorted ascRel := by
    rw [hdef_f]
    exact List.sorted_insertionSort ascRel l
  have hperm_t : (sort_articles_by_date l true).Perm l := by
    rw [hdef_t]
    exact List.perm_insertionSort descRel l
  have hperm_f : (sort_articles_by_date l false).Perm l := by
    rw [hdef_f]
    exact List.perm_insertionSort ascRel l
  refine ⟨hsort_t, hsort_f, hperm_t, hperm_f, ?_, ?_⟩
  · intro rev d
    cases rev
    · rw [hdef_f]
      apply filter_insertionSort
      intro x y hx hr
      rw [decide_eq_true_eq] at hx
      rw [decide_eq_false_iff_not]
      intro hy
      apply hr
      show parse_date x.published ≤ parse_date y.published
      rw [hx, hy]
    · rw [hdef_t]
      apply filter_insertionSort
      intro x y hx hr
      rw [decide_eq_true_eq] at hx
      rw [decide_eq_false_iff_not]
      intro hy
      apply hr
      show parse_date y.published ≤ parse_date x.published
      rw [hx, hy]
  · have e2 : ((sort_articles_by_date l true).map fun a => parse_date a.published).Pairwise
        (fun x y : DateTime => y ≤ x) := by
      rw [List.pairwise_map]
      exact hsort_t
    have e1 : ((sort_articles_by_date l false).reverse.map
        fun a => parse_date a.published).Pairwise (fun x y : DateTime => y ≤ x) := by
      rw [List.map_reverse, List.pairwise_reverse, List.pairwise_map]
      exact hsort_f
    have hp : ((sort_articles_by_date l false).reverse.map fun a => parse_date a.published).Perm
        ((sort_articles_by_date l true).map fun a => parse_date a.published) :=
      (((sort_articles_by_date l false).reverse_perm.trans hperm_f).trans
        hperm_t.symm).map fun a => parse_date a.published
    exact List.eq_of_perm_of_sorted hp e1 e2

/-! ### Claim theorems: the presenter -/

/-- A plain article used in the presenter counterexample. -/
def artP : Article := ⟨str "t", str "l", str "d", str "p", str "s"⟩

/-- C8 counterexample: at the Python integer limit `-1` with three
articles, `articles[:limit]` drops the last article, so exactly 2
entries are printed while `min(limit, len(articles))` is `-1`: the
printed count does not equal `min(limit, length)` for every limit. -/
theorem display_articles_negative_limit_cex :
    (display_articles [artP, artP, artP] (-1)).length = 2 ∧
    ¬ ((display_articles [artP, artP, artP] (-1)).length : Int) =
        min (-1 : Int) (([artP, artP, artP] : List Article).length : Int) := by
  decide

/-- C8 (amended): for every NONNEGATIVE limit, `display_articles`
prints exactly `min(limit, length)` entries, in input order (the i-th
printed block is the i-th input article, numbered from 1), each with
the description truncated by `[:150]` and the ellipsis always appended
even when the description is shorter; the model is a pure function of
the article list, so no article is mutated. -/
theorem display_articles_spec (l : List Article) (limit : Int) (h : 0 ≤ limit) :
    (display_articles l limit).length = min limit.toNat l.length ∧
    ∀ (i : Nat) (hi : i < (display_articles l limit).length) (hj : i < l.length),
      (display_articles l limit).get ⟨i, hi⟩ =
        { index := 1 + i
          source := (l.get ⟨i, hj⟩).source
          title := (l.get ⟨i, hj⟩).title
          link := (l.get ⟨i, hj⟩).link
          published := (l.get ⟨i, hj⟩).published
          descriptionShown := (l.get ⟨i, hj⟩).description.take 150 ++ str "..." } := by
  have hslice : pySlice limit l = l.take limit.toNat := by
    unfold pySlice
    rw [if_pos h]
  constructor
  · unfold display_articles
    rw [hslice]
    simp
  · intro i hi hj
    have hda : display_articles l limit =
        (List.enumFrom 1 (l.take limit.toNat)).map fun p =>
          { index := p.1
            source := p.2.source
            title := p.2.title
            link := p.2.link
            published := p.2.published
            descriptionShown := p.2.description.take 150 ++ str "..." } := by
      unfold display_articles
      rw [hslice]
    rw [List.get_eq_getElem, List.get_eq_getElem]
    simp only [hda, List.getElem_map, List.getElem_enumFrom, List.getElem_take]

/-- Witness for C8 (amended) at a concrete list and limit. -/
theorem display_articles_spec_witness :
    (display_articles [artP, artP, artP] 10).length =
      min (10 : Int).toNat ([artP, artP, artP] : List Article).length ∧
    ∀ (i : Nat) (hi : i < (display_articles [artP, artP, artP] 10).length)
      (hj : i < ([artP, artP, artP] : List Article).length),
      (display_articles [artP, artP, artP] 10).get ⟨i, hi⟩ =
        { index := 1 + i
          source := (([artP, artP, artP] : List Article).get ⟨i, hj⟩).source
          title := (([artP, artP, artP] : List Article).get ⟨i, hj⟩).title
          link := (([artP, artP, artP] : List Article).get ⟨i, hj⟩).link
          published := (([artP, artP, artP] : List Article).get ⟨i, hj⟩).published
          descriptionShown :=
            (([artP, artP, artP] : List Article).get ⟨i, hj⟩).description.take 150
              ++ str "..." } :=
  display_articles_spec [artP, artP, artP] 10 (by decide)

end RSS
